import Mathlib

/-!
Verification development for the anchor tracking and recovery engine of the
vscode-tracenotes extension (`src/traceManager.ts`).

The engine is embedded shallowly: documents and snapshots are `List Char`,
trace points are a structure mirroring `TracePoint`, and the three operations
the claims are about — the synchronous offset adjuster
(`handleTextDocumentChange`), the validation pass (`processValidationQueue`)
and the recovery cascade (`recoverTracePoints`) — are translated into pure
Lean functions.  Host-editor services (document slicing, `positionAt`, edit
application, the `vscode.Range` start/end normalization) are modelled from
their documented behaviour.
-/

namespace TraceNotes

/-- Whitespace test for a character, matching the JavaScript regular-expression
class `\s` (used by `replace(/\s+/g, ...)` in the source) and the character
set removed by `String.prototype.trim`. -/
def isWs (c : Char) : Bool :=
  c = ' ' || c = '\t' || c = '\n' || c = '\x0b' || c = '\x0c' || c = '\r' ||
  c = '\u00A0' || c = '\u1680' || ('\u2000' ≤ c && c ≤ '\u200A') ||
  c = '\u2028' || c = '\u2029' || c = '\u202F' || c = '\u205F' ||
  c = '\u3000' || c = '\uFEFF'

/-- One-pass whitespace-run collapser; the flag records whether the scan is
currently inside a whitespace run whose single replacement space has already
been emitted. -/
def collapseWs : Bool → List Char → List Char
  | _, [] => []
  | inRun, c :: cs =>
    if isWs c then
      if inRun then collapseWs true cs else ' ' :: collapseWs true cs
    else c :: collapseWs false cs

/-- Model of JavaScript `s.replace(/\s+/g, ' ')`: every maximal run of
whitespace characters is replaced by a single space. -/
def jsReplaceWsRuns (l : List Char) : List Char := collapseWs false l

/-- Model of JavaScript `s.trim()`: drop whitespace from both ends. -/
def jsTrim (l : List Char) : List Char :=
  ((l.dropWhile isWs).reverse.dropWhile isWs).reverse

/-- `contentMatches(docContent, storedContent)` from `traceManager.ts`
(lines 491–496): normalize both strings by collapsing all whitespace runs to
a single space and trimming, then compare for equality. -/
def contentMatches (docContent storedContent : List Char) : Bool :=
  decide (jsTrim (jsReplaceWsRuns docContent) = jsTrim (jsReplaceWsRuns storedContent))

/-- The spec's normalization, stated from its words: "collapsing all
whitespace runs (including newlines) to a single space and trimming both
ends". -/
def specNormalize (l : List Char) : List Char :=
  jsTrim (jsReplaceWsRuns l)

/-- `pat` is a leading segment of `s` (character-wise). -/
def listStartsWith : List Char → List Char → Bool
  | [], _ => true
  | _ :: _, [] => false
  | a :: xs, b :: ys => a = b && listStartsWith xs ys

/-- Model of JavaScript `hay.indexOf(needle)`: index of the first occurrence
of `needle` in `hay`, `none` when absent.  (`hay.indexOf("")` is `0`.) -/
def strIndexOf (hay needle : List Char) : Option Nat :=
  if listStartsWith needle hay then some 0
  else
    match hay with
    | [] => none
    | _ :: t => (strIndexOf t needle).map (· + 1)

/-- Model of JavaScript `s.split('\n')`: list of segments between newline
characters; never empty, `"".split` gives one empty segment. -/
def splitOnNl : List Char → List (List Char)
  | [] => [[]]
  | c :: t =>
    if c = '\n' then [] :: splitOnNl t
    else
      match splitOnNl t with
      | [] => [[c]]
      | h :: r => (c :: h) :: r

/-- Match a tokenised whitespace-flexible pattern against a leading segment
of `area`, returning the matched length.  In the tokenised pattern (produced
by `collapseWs`) a `' '` stands for a `\s+` wildcard and any other character
is a literal.  Greedy maximal-munch matching of each `\s+` run is equivalent
to the JavaScript engine's backtracking here, because after a `\s+` the
pattern continues with a non-whitespace literal (or ends). -/
def flexMatchTok : List Char → List Char → Option Nat
  | [], _ => some 0
  | c :: cs, area =>
    if c = ' ' then
      let k := (area.takeWhile isWs).length
      if k = 0 then none
      else (flexMatchTok cs (area.drop k)).map (· + k)
    else
      match area with
      | [] => none
      | a :: rest => if a = c then (flexMatchTok cs rest).map (· + 1) else none

/-- Match the whitespace-flexible pattern built from `content` (regex
metacharacters escaped, then every whitespace run replaced by `\s+`) against
a leading segment of `area`; return the matched length. -/
def flexMatchAt (content area : List Char) : Option Nat :=
  flexMatchTok (collapseWs false content) area

/-- Model of `new RegExp(flexibleRegexStr, 'g').exec(searchArea)`: the
leftmost start position at which the whitespace-flexible pattern of `content`
matches, with the matched length. -/
def flexSearch : List Char → List Char → Option (Nat × Nat)
  | content, [] => (flexMatchAt content []).map (fun len => (0, len))
  | content, a :: t =>
    match flexMatchAt content (a :: t) with
    | some len => some (0, len)
    | none => (flexSearch content t).map (fun p => (p.1 + 1, p.2))

/-- `SEARCH_RADIUS` constant from `traceManager.ts`. -/
def SEARCH_RADIUS : Nat := 5000

/-- `MAX_REGEX_LENGTH` constant from `traceManager.ts`. -/
def MAX_REGEX_LENGTH : Nat := 2000

/-- `minAnchorLength` local constant of `recoverTracePoints`. -/
def minAnchorLength : Nat := 20

/-- Embedding of the `TracePoint` fields the engine reads or writes
(`types.ts`).  Offsets are `Int` because the synchronous adjuster can drive
them negative (the validation pass explicitly checks `startOffset < 0`).
`rangeOffset` is optional to reflect the `!trace.rangeOffset` migration guard.
`lang`, `timestamp`, `highlight` and `children` are presentation-only and the
engine operates on the flattened list, so they are omitted. -/
structure Trace where
  id : String
  filePath : String
  content : List Char
  note : String
  rangeOffset : Option (Int × Int)
  lineRange : Option (Nat × Nat)
  orphaned : Bool
deriving DecidableEq, Repr

/-- One entry of `event.contentChanges`: `rangeOffset`, `rangeLength` and the
inserted `text`, in pre-edit document coordinates. -/
structure ContentChange where
  rangeOffset : Nat
  rangeLength : Nat
  text : List Char
deriving DecidableEq, Repr

/-- Number of newline characters in a list. -/
def countNl (l : List Char) : Nat := l.count '\n'

/-- Model of `document.positionAt(off).line`: the number of line breaks
before the (clamped) offset. -/
def lineOf (doc : List Char) (off : Int) : Nat := countNl (doc.take off.toNat)

/-- Slice of a document between two already-clamped offsets. -/
def sliceOffsets (doc : List Char) (a b : Nat) : List Char := (doc.drop a).take (b - a)

/-- Model of `document.offsetAt(new Position(line, 0))`: offset of the start
of the given line. -/
def offsetAtLineStart (doc : List Char) (line : Nat) : Nat :=
  ((splitOnNl doc).take line).foldl (fun acc l => acc + l.length + 1) 0

/-- `ensureOffsets` from `traceManager.ts` (lines 388–418), restricted to a
single trace: reconstruct `rangeOffset` from the deprecated `lineRange` when
it is missing; if that is impossible, set `[0, 0]` and orphan the trace. -/
def ensureOffsets (doc : List Char) (t : Trace) : Trace :=
  match t.rangeOffset with
  | some _ => t
  | none =>
    match t.lineRange with
    | some (startLine, endLine) =>
      let lineCount := (splitOnNl doc).length
      if startLine < lineCount then
        let startOffset := offsetAtLineStart doc startLine
        let endOffsetLine := min endLine (lineCount - 1)
        let endLineLen := ((splitOnNl doc).getD endOffsetLine []).length
        let endOffset := offsetAtLineStart doc endOffsetLine + endLineLen
        { t with rangeOffset := some ((startOffset : Int), (endOffset : Int)) }
      else { t with rangeOffset := some (0, 0), orphaned := true }
    | none => { t with rangeOffset := some (0, 0), orphaned := true }

/-- The synchronous offset math of `handleTextDocumentChange`
(`traceManager.ts` lines 290–313) for one content change applied to one
trace.  `doc` is the document passed to `ensureOffsets` for the migration
case. -/
def applyChangeToTrace (doc : List Char) (c : ContentChange) (t : Trace) : Trace :=
  if t.orphaned then t
  else
    let t := ensureOffsets doc t
    match t.rangeOffset with
    | none => t
    | some (s, e) =>
      let changeStart : Int := c.rangeOffset
      let changeEnd : Int := c.rangeOffset + c.rangeLength
      let delta : Int := (c.text.length : Int) - (c.rangeLength : Int)
      if changeEnd ≤ s then { t with rangeOffset := some (s + delta, e + delta) }
      else if changeStart ≥ e then t
      else if changeStart ≥ s ∧ changeEnd ≤ e then { t with rangeOffset := some (s, e + delta) }
      else t

/-- `handleTextDocumentChange` over a whole event: the changes are applied in
the order received, each one to every trace of the file. -/
def handleTextDocumentChange (doc : List Char) (changes : List ContentChange)
    (ts : List Trace) : List Trace :=
  changes.foldl (fun acc c => acc.map (applyChangeToTrace doc c)) ts

/-- Host-editor semantics of applying one content change to the document
text (not engine code; used to relate ranges to the post-edit document). -/
def applyEdit (doc : List Char) (c : ContentChange) : List Char :=
  doc.take c.rangeOffset ++ c.text ++ doc.drop (c.rangeOffset + c.rangeLength)

/-- `Math.max(0, lastKnownStart - SEARCH_RADIUS)`. -/
def searchStartOf (last : Int) : Nat := (last - (SEARCH_RADIUS : Int)).toNat

/-- `Math.min(fullText.length, lastKnownStart + SEARCH_RADIUS + storedContent.length)`. -/
def searchEndOf (ftLen : Nat) (last : Int) (cLen : Nat) : Nat :=
  (min (ftLen : Int) (last + (SEARCH_RADIUS : Int) + (cLen : Int))).toNat

/-- `fullText.slice(searchStart, searchEnd)`. -/
def searchAreaOf (ft c : List Char) (last : Int) : List Char :=
  (ft.drop (searchStartOf last)).take (searchEndOf ft.length last c.length - searchStartOf last)

/-- Strategy 1 of `recoverTracePoints`: exact substring search inside the
bounded window. -/
def windowedExactStep (ft c : List Char) (last : Int) : Option (Nat × Nat) :=
  (strIndexOf (searchAreaOf ft c last) c).map
    (fun i => (searchStartOf last + i, searchStartOf last + i + c.length))

/-- Strategy 2 of `recoverTracePoints`: the whitespace-flexible regex search,
guarded by the `MAX_REGEX_LENGTH` cap.  The returned end uses the matched
span's actual length. -/
def flexibleStep (ft c : List Char) (last : Int) : Option (Nat × Nat) :=
  if c.length ≤ MAX_REGEX_LENGTH then
    (flexSearch c (searchAreaOf ft c last)).map
      (fun p => (searchStartOf last + p.1, searchStartOf last + p.1 + p.2))
  else none

/-- Strategy 3 of `recoverTracePoints`: head/tail triangulation for
multi-line content. -/
def headTailStep (ft c : List Char) (last : Int) : Option (Nat × Nat) :=
  let area := searchAreaOf ft c last
  let ss := searchStartOf last
  let contentLines := splitOnNl (jsTrim c)
  if 3 ≤ contentLines.length ∧ minAnchorLength * 2 < c.length then
    let headText := jsTrim (contentLines.headD [])
    let tailText := jsTrim (contentLines.getLastD [])
    match strIndexOf area headText with
    | some headIdx =>
      let expectedTailPos := headIdx + c.length
      let searchTailStart := max headIdx (expectedTailPos - 500)
      let searchTailEnd := min area.length (expectedTailPos + 500)
      let tailArea := (area.drop searchTailStart).take (searchTailEnd - searchTailStart)
      match strIndexOf tailArea tailText with
      | some tailIdx => some (ss + headIdx, ss + searchTailStart + tailIdx + tailText.length)
      | none => none
    | none => none
  else none

/-- Strategy 4 of `recoverTracePoints`: whole-document exact substring
search. -/
def wholeDocStep (ft c : List Char) : Option (Nat × Nat) :=
  (strIndexOf ft c).map (fun i => (i, i + c.length))

/-- The cascade of `recoverTracePoints`, abstracted over the outcome of the
regex try-block: `regexOutcome = none` stands for either "no match" or "an
exception was thrown and caught" — in both cases the source falls through to
the later strategies. -/
def recoverWithRegex (ft c : List Char) (last : Int)
    (regexOutcome : Option (Nat × Nat)) : Option (Nat × Nat) :=
  match windowedExactStep ft c last with
  | some r => some r
  | none =>
    match regexOutcome with
    | some r => some r
    | none =>
      match headTailStep ft c last with
      | some r => some r
      | none => wholeDocStep ft c

/-- `recoverTracePoints` from `traceManager.ts` (lines 420–489). -/
def recoverTracePoints (ft c : List Char) (last : Int) : Option (Nat × Nat) :=
  recoverWithRegex ft c last (flexibleStep ft c last)

/-- The per-trace body of `processValidationQueue` (`traceManager.ts` lines
342–375): bounds check, line recomputation, content validation, recovery on
mismatch, orphan resurrection on match.  The `min`/`max` on the slice bounds
models the `vscode.Range` constructor's start/end normalization. -/
def validateTrace (doc : List Char) (t : Trace) : Trace :=
  match t.rangeOffset with
  | none => t
  | some (startOffset, endOffset) =>
    if startOffset < 0 ∨ (doc.length : Int) < endOffset then
      { t with orphaned := true }
    else
      let startLine := lineOf doc startOffset
      let endLine := lineOf doc endOffset
      let lo := min startOffset.toNat endOffset.toNat
      let hi := max startOffset.toNat endOffset.toNat
      let currentContent := sliceOffsets doc lo hi
      if contentMatches currentContent t.content then
        if t.orphaned then { t with lineRange := some (startLine, endLine), orphaned := false }
        else { t with lineRange := some (startLine, endLine) }
      else
        match recoverTracePoints doc t.content startOffset with
        | some (rs, re) =>
          { t with rangeOffset := some ((rs : Int), (re : Int)),
                   lineRange := some (lineOf doc (rs : Int), lineOf doc (re : Int)),
                   orphaned := false }
        | none => { t with lineRange := some (startLine, endLine), orphaned := true }

/-- One drained queue entry of `processValidationQueue`: every trace of the
document is validated independently. -/
def validateAll (doc : List Char) (ts : List Trace) : List Trace :=
  ts.map (validateTrace doc)


/-! ## Claim theorems -/

/-- C1: for every non-orphaned trace anchor with range `[start, end)` and
every text-change event with `changeEnd ≤ start`, the offset adjuster sets
the anchor's new range to `[start + delta, end + delta]` where
`delta = insertedLength - deletedLength`. -/
theorem c1_offset_shift (doc : List Char) (c : ContentChange) (t : Trace) (s e : Int)
    (horph : t.orphaned = false) (hro : t.rangeOffset = some (s, e))
    (hbefore : (c.rangeOffset : Int) + (c.rangeLength : Int) ≤ s) :
    (applyChangeToTrace doc c t).rangeOffset =
      some (s + ((c.text.length : Int) - (c.rangeLength : Int)),
            e + ((c.text.length : Int) - (c.rangeLength : Int))) := by
  have hens : ensureOffsets doc t = t := by
    unfold ensureOffsets; rw [hro]
  unfold applyChangeToTrace
  rw [horph]
  simp only [Bool.false_eq_true, if_false, hens, hro]
  rw [if_pos hbefore]

/-- C1 witness: the spec scenario — anchor `[100, 150)`, 20 characters
inserted at offset 10, range becomes `[120, 170)`. -/
theorem c1_offset_shift_witness :
    (applyChangeToTrace []
      { rangeOffset := 10, rangeLength := 0, text := List.replicate 20 'x' }
      { id := "t1", filePath := "f", content := "function foo()".data, note := "",
        rangeOffset := some (100, 150), lineRange := none, orphaned := false }).rangeOffset =
      some (120, 170) := by
  have h := c1_offset_shift []
    { rangeOffset := 10, rangeLength := 0, text := List.replicate 20 'x' }
    { id := "t1", filePath := "f", content := "function foo()".data, note := "",
      rangeOffset := some (100, 150), lineRange := none, orphaned := false }
    100 150 rfl rfl (by decide)
  simpa using h

/-- C2 counterexample: a pure insertion exactly at the anchor start satisfies
the claim's containment condition (`changeStart ≥ start` and
`changeEnd ≤ end`), but the adjuster takes the edit-after branch and shifts
`start` as well (range `[5,10)` + 3-character insertion at 5 gives `[8,13)`,
not the claimed `[5,13)`). -/
theorem c2_containment_counterexample :
    (((5 : Int) ≤ 5) ∧ ((5 : Int) + 0 ≤ 10)) ∧
    (applyChangeToTrace []
      { rangeOffset := 5, rangeLength := 0, text := "xyz".data }
      { id := "t2", filePath := "f", content := [], note := "",
        rangeOffset := some (5, 10), lineRange := none, orphaned := false }).rangeOffset =
      some (8, 13) ∧
    (applyChangeToTrace []
      { rangeOffset := 5, rangeLength := 0, text := "xyz".data }
      { id := "t2", filePath := "f", content := [], note := "",
        rangeOffset := some (5, 10), lineRange := none, orphaned := false }).rangeOffset ≠
      some (5, 13) :=
  ⟨by decide, by decide, by decide⟩

/-- C2 amended: a change fully contained in the anchor AND genuinely
overlapping it (`changeEnd > start` and `changeStart < end`, which excludes
pure insertions at either boundary) updates only `end` (to `end + delta`) and
leaves `start` unchanged. -/
theorem c2_containment_growth (doc : List Char) (c : ContentChange) (t : Trace) (s e : Int)
    (horph : t.orphaned = false) (hro : t.rangeOffset = some (s, e))
    (h1 : s ≤ (c.rangeOffset : Int)) (h2 : (c.rangeOffset : Int) + (c.rangeLength : Int) ≤ e)
    (h3 : s < (c.rangeOffset : Int) + (c.rangeLength : Int)) (h4 : (c.rangeOffset : Int) < e) :
    (applyChangeToTrace doc c t).rangeOffset =
      some (s, e + ((c.text.length : Int) - (c.rangeLength : Int))) := by
  have hens : ensureOffsets doc t = t := by
    unfold ensureOffsets; rw [hro]
  unfold applyChangeToTrace
  rw [horph]
  simp only [Bool.false_eq_true, if_false, hens, hro]
  rw [if_neg (by omega), if_neg (by omega), if_pos ⟨h1, h2⟩]

/-- C2 amended witness: anchor `[0, 10)`, replacement of `[2, 4)` by 4
characters (`delta = 2`) gives `[0, 12)`. -/
theorem c2_containment_growth_witness :
    (applyChangeToTrace []
      { rangeOffset := 2, rangeLength := 2, text := "wxyz".data }
      { id := "t2w", filePath := "f", content := [], note := "",
        rangeOffset := some (0, 10), lineRange := none, orphaned := false }).rangeOffset =
      some (0, 12) := by
  have h := c2_containment_growth []
    { rangeOffset := 2, rangeLength := 2, text := "wxyz".data }
    { id := "t2w", filePath := "f", content := [], note := "",
      rangeOffset := some (0, 10), lineRange := none, orphaned := false }
    0 10 rfl rfl (by decide) (by decide) (by decide) (by decide)
  simpa using h

/-- C5: `contentMatches` returns true exactly when the two strings are equal
after collapsing every whitespace run to a single space and trimming both
ends; a re-indented snippet matches, any other byte difference does not. -/
theorem c5_contentMatches_spec :
    (∀ a b : List Char, contentMatches a b = true ↔ specNormalize a = specNormalize b) ∧
    contentMatches "foo(x)\n  bar".data "foo(x)\n    bar".data = true ∧
    contentMatches "foo(x)\n  bar".data "foo(x)\n  baz".data = false :=
  ⟨fun a b => by simp [contentMatches, specNormalize], by decide, by decide⟩

/-- C7: the validation/recovery pass never modifies a trace's stored snapshot
text (nor its identity or note) — only `rangeOffset`, `lineRange` and
`orphaned` can change. -/
theorem c7_validation_preserves_snapshot (doc : List Char) (t : Trace) :
    (validateTrace doc t).content = t.content ∧
    (validateTrace doc t).id = t.id ∧
    (validateTrace doc t).note = t.note ∧
    (validateTrace doc t).filePath = t.filePath := by
  unfold validateTrace
  split
  · exact ⟨rfl, rfl, rfl, rfl⟩
  · split
    · exact ⟨rfl, rfl, rfl, rfl⟩
    · dsimp only
      split
      · split
        · exact ⟨rfl, rfl, rfl, rfl⟩
        · exact ⟨rfl, rfl, rfl, rfl⟩
      · split
        · exact ⟨rfl, rfl, rfl, rfl⟩
        · exact ⟨rfl, rfl, rfl, rfl⟩

/-- C9: the whitespace-flexible regex strategy is attempted only when the
stored content is within the `MAX_REGEX_LENGTH` cap, and whenever the regex
step produces nothing — no match or a caught exception, both modelled by
`none` — the cascade still continues to head/tail triangulation and the
whole-document search. -/
theorem c9_regex_guard_and_cascade (ft c : List Char) (l : Int) :
    ((MAX_REGEX_LENGTH : Nat) < c.length →
      recoverTracePoints ft c l = recoverWithRegex ft c l none) ∧
    (recoverWithRegex ft c l none =
      match windowedExactStep ft c l with
      | some r => some r
      | none =>
        match headTailStep ft c l with
        | some r => some r
        | none => wholeDocStep ft c) := by
  constructor
  · intro h
    unfold recoverTracePoints flexibleStep
    rw [if_neg (by omega)]
  · rfl

/-- C9 witness: a 2001-character snapshot skips the regex strategy. -/
theorem c9_regex_guard_witness :
    (MAX_REGEX_LENGTH : Nat) < (List.replicate 2001 'a').length ∧
    recoverTracePoints [] (List.replicate 2001 'a') 0 =
      recoverWithRegex [] (List.replicate 2001 'a') 0 none :=
  ⟨by rw [List.length_replicate]; norm_num [MAX_REGEX_LENGTH],
   (c9_regex_guard_and_cascade [] _ 0).1 (by rw [List.length_replicate]; norm_num [MAX_REGEX_LENGTH])⟩

/-- C10: an orphaned trace whose stored range again matches its snapshot is
resurrected — the next validation pass clears `orphaned` and leaves
`rangeOffset` unchanged (only `lineRange` is recomputed). -/
theorem c10_orphan_resurrection (doc : List Char) (t : Trace) (s e : Int)
    (horph : t.orphaned = true) (hro : t.rangeOffset = some (s, e))
    (hin : ¬(s < 0 ∨ (doc.length : Int) < e))
    (hmatch : contentMatches
      (sliceOffsets doc (min s.toNat e.toNat) (max s.toNat e.toNat)) t.content = true) :
    validateTrace doc t =
      { t with lineRange := some (lineOf doc s, lineOf doc e), orphaned := false } := by
  unfold validateTrace
  simp only [hro]
  rw [if_neg hin]
  simp only [hmatch, horph, if_true]

/-- C10 witness: an orphaned anchor on `"ab"` with range `[0, 2)` and
snapshot `"ab"` is un-orphaned with its range intact. -/
theorem c10_orphan_resurrection_witness :
    validateTrace "ab".data
      { id := "t10", filePath := "f", content := "ab".data, note := "",
        rangeOffset := some (0, 2), lineRange := none, orphaned := true } =
      { id := "t10", filePath := "f", content := "ab".data, note := "",
        rangeOffset := some (0, 2), lineRange := some (0, 0), orphaned := false } := by
  have h := c10_orphan_resurrection "ab".data
    { id := "t10", filePath := "f", content := "ab".data, note := "",
      rangeOffset := some (0, 2), lineRange := none, orphaned := true }
    0 2 rfl rfl (by decide) (by decide)
  simpa using h

/-- C4: `recoverTracePoints` returns `none` exactly when all four cascade
strategies fail; and in that case the validation pass marks the trace
orphaned while leaving `rangeOffset` unchanged at its last computed value. -/
theorem c4_recovery_exhaustion :
    (∀ (ft c : List Char) (l : Int),
      recoverTracePoints ft c l = none ↔
        windowedExactStep ft c l = none ∧ flexibleStep ft c l = none ∧
        headTailStep ft c l = none ∧ wholeDocStep ft c = none) ∧
    (∀ (doc : List Char) (t : Trace) (s e : Int),
      t.rangeOffset = some (s, e) →
      ¬(s < 0 ∨ (doc.length : Int) < e) →
      contentMatches
        (sliceOffsets doc (min s.toNat e.toNat) (max s.toNat e.toNat)) t.content = false →
      recoverTracePoints doc t.content s = none →
      validateTrace doc t =
        { t with lineRange := some (lineOf doc s, lineOf doc e), orphaned := true }) := by
  constructor
  · intro ft c l
    unfold recoverTracePoints recoverWithRegex
    cases hw : windowedExactStep ft c l <;>
      cases hf : flexibleStep ft c l <;>
        cases hh : headTailStep ft c l <;>
          cases hd : wholeDocStep ft c <;> simp
  · intro doc t s e hro hin hmm hnone
    unfold validateTrace
    simp only [hro]
    rw [if_neg hin]
    simp only [hmm, Bool.false_eq_true, if_false, hnone]

/-- C4 witness: on document `"xyz"` with snapshot `"qq"` every strategy
fails, and a trace at `[0, 2)` is orphaned with its range untouched. -/
theorem c4_recovery_exhaustion_witness :
    validateTrace "xyz".data
      { id := "t4", filePath := "f", content := "qq".data, note := "",
        rangeOffset := some (0, 2), lineRange := none, orphaned := false } =
      { id := "t4", filePath := "f", content := "qq".data, note := "",
        rangeOffset := some (0, 2), lineRange := some (0, 0), orphaned := true } := by
  have h := c4_recovery_exhaustion.2 "xyz".data
    { id := "t4", filePath := "f", content := "qq".data, note := "",
      rangeOffset := some (0, 2), lineRange := none, orphaned := false }
    0 2 rfl (by decide) (by decide) (by decide)
  simpa using h


/-! ## Search-primitive lemmas -/

/-- A leading run is never longer than the list. -/
theorem takeWhileLenLe (p : Char → Bool) : ∀ l : List Char, (l.takeWhile p).length ≤ l.length := by
  intro l
  induction l with
  | nil => simp [List.takeWhile]
  | cons c t ih =>
    by_cases h : p c
    · simp only [List.takeWhile_cons, h, if_true, List.length_cons]
      omega
    · simp [List.takeWhile_cons, h]

/-- A successful `listStartsWith` really is a leading segment. -/
theorem listStartsWith_take : ∀ pat s : List Char, listStartsWith pat s = true →
    s.take pat.length = pat ∧ pat.length ≤ s.length := by
  intro pat
  induction pat with
  | nil => intro s _; exact ⟨rfl, Nat.zero_le _⟩
  | cons a xs ih =>
    intro s h
    cases s with
    | nil => simp [listStartsWith] at h
    | cons b ys =>
      simp only [listStartsWith, Bool.and_eq_true, decide_eq_true_eq] at h
      obtain ⟨rfl, h2⟩ := h
      obtain ⟨ih1, ih2⟩ := ih ys h2
      refine ⟨?_, ?_⟩
      · simp [List.length_cons, List.take_succ_cons, ih1]
      · simp only [List.length_cons]; omega

/-- `strIndexOf` finds a real occurrence: the needle can be read back off the
haystack at the returned index, which is in bounds. -/
theorem strIndexOf_spec (needle : List Char) : ∀ (hay : List Char) (i : Nat),
    strIndexOf hay needle = some i →
    (hay.drop i).take needle.length = needle ∧ i + needle.length ≤ hay.length := by
  intro hay
  induction hay with
  | nil =>
    intro i h
    unfold strIndexOf at h
    split at h
    · rename_i hsw
      obtain ⟨h1, h2⟩ := listStartsWith_take needle [] hsw
      cases h
      exact ⟨h1, by omega⟩
    · exact absurd h (by simp)
  | cons a t ih =>
    intro i h
    unfold strIndexOf at h
    split at h
    · rename_i hsw
      obtain ⟨h1, h2⟩ := listStartsWith_take needle (a :: t) hsw
      cases h
      exact ⟨h1, by omega⟩
    · simp only [Option.map_eq_some'] at h
      obtain ⟨j, hj, rfl⟩ := h
      obtain ⟨ih1, ih2⟩ := ih j hj
      refine ⟨?_, ?_⟩
      · simpa [Nat.add_comm] using ih1
      · simp only [List.length_cons]; omega

/-- Occurrence found by `strIndexOf` inside a window `(ft.drop ss).take k`
read back against the underlying document. -/
theorem strIndexOf_window (ft c : List Char) (ss k i : Nat)
    (h : strIndexOf ((ft.drop ss).take k) c = some i) :
    (ft.drop (ss + i)).take c.length = c ∧
      i + c.length ≤ ((ft.drop ss).take k).length := by
  obtain ⟨h1, h2⟩ := strIndexOf_spec c _ i h
  refine ⟨?_, h2⟩
  have hlen : ((ft.drop ss).take k).length = min k (ft.length - ss) := by
    simp [List.length_take, List.length_drop]
  have hck : c.length ≤ k - i := by
    have : i + c.length ≤ min k (ft.length - ss) := hlen ▸ h2
    omega
  calc (ft.drop (ss + i)).take c.length
      = ((ft.drop ss).drop i).take c.length := by rw [List.drop_drop]
    _ = (((ft.drop ss).take k).drop i).take c.length := by
        rw [List.drop_take]
        rw [List.take_take]
        rw [Nat.min_eq_left hck]
    _ = c := h1

/-- The length bound on the window. -/
theorem searchArea_length (ft c : List Char) (l : Int) :
    (searchAreaOf ft c l).length ≤ ft.length - searchStartOf l := by
  unfold searchAreaOf
  simp [List.length_take, List.length_drop]

/-- A successful flexible-pattern match never reaches past the end of the
area. -/
theorem flexMatchTok_le : ∀ (pat area : List Char) (L : Nat),
    flexMatchTok pat area = some L → L ≤ area.length := by
  intro pat
  induction pat with
  | nil =>
    intro area L h
    unfold flexMatchTok at h
    cases h
    exact Nat.zero_le _
  | cons c cs ih =>
    intro area L h
    unfold flexMatchTok at h
    split at h
    · dsimp only at h
      split at h
      · exact absurd h (by simp)
      · simp only [Option.map_eq_some'] at h
        obtain ⟨L1, hL1, rfl⟩ := h
        have h1 := ih _ L1 hL1
        have h2 := takeWhileLenLe isWs area
        simp only [List.length_drop] at h1
        omega
    · split at h
      · exact absurd h (by simp)
      · rename_i a rest
        split at h
        · simp only [Option.map_eq_some'] at h
          obtain ⟨L1, hL1, rfl⟩ := h
          have h1 := ih _ L1 hL1
          simp only [List.length_cons]
          omega
        · exact absurd h (by simp)

/-- A successful flexible search stays inside the area. -/
theorem flexSearch_le (c : List Char) : ∀ (area : List Char) (i L : Nat),
    flexSearch c area = some (i, L) → i + L ≤ area.length := by
  intro area
  induction area with
  | nil =>
    intro i L h
    unfold flexSearch at h
    simp only [Option.map_eq_some'] at h
    obtain ⟨len, hlen, heq⟩ := h
    cases heq
    have := flexMatchTok_le _ _ _ hlen
    simpa using this
  | cons a t ih =>
    intro i L h
    unfold flexSearch at h
    split at h
    · rename_i len hlen
      cases h
      have := flexMatchTok_le _ _ _ hlen
      simpa using this
    · simp only [Option.map_eq_some'] at h
      obtain ⟨⟨i1, L1⟩, hp, heq⟩ := h
      cases heq
      have := ih i1 L1 hp
      simp only [List.length_cons]
      omega


/-- A list containing a non-whitespace character trims to a nonempty list. -/
theorem jsTrim_ne_nil (l : List Char) (x : Char) (hx : x ∈ l) (hxw : isWs x = false) :
    jsTrim l ≠ [] := by
  intro hnil
  unfold jsTrim at hnil
  have h1 : (l.dropWhile isWs).reverse.dropWhile isWs = [] :=
    List.reverse_eq_nil_iff.mp hnil
  rw [List.dropWhile_eq_nil_iff] at h1
  have h2 : ∀ y ∈ l.dropWhile isWs, isWs y = true := fun y hy =>
    h1 y (List.mem_reverse.mpr hy)
  have hxl : x ∈ l.takeWhile isWs ++ l.dropWhile isWs := by
    rw [List.takeWhile_append_dropWhile]; exact hx
  rcases List.mem_append.mp hxl with h | h
  · rw [List.mem_takeWhile_imp h] at hxw; cases hxw
  · rw [h2 x h] at hxw; cases hxw

/-- The head of a `dropWhile` result fails the predicate. -/
theorem dropWhile_head_not (p : Char → Bool) : ∀ (l : List Char) (z : Char) (zs : List Char),
    l.dropWhile p = z :: zs → p z = false := by
  intro l
  induction l with
  | nil => intro z zs h; simp [List.dropWhile] at h
  | cons c t ih =>
    intro z zs h
    by_cases hc : p c = true
    · rw [List.dropWhile_cons_of_pos hc] at h
      exact ih z zs h
    · rw [List.dropWhile_cons_of_neg hc] at h
      cases h
      simpa using hc

/-- The last character of a trimmed list is never whitespace. -/
theorem jsTrim_getLast_not_ws (l : List Char) (z : Char)
    (h : (jsTrim l).getLast? = some z) : isWs z = false := by
  unfold jsTrim at h
  rw [List.getLast?_reverse] at h
  cases hM : (l.dropWhile isWs).reverse.dropWhile isWs with
  | nil => rw [hM] at h; simp at h
  | cons y ys =>
    rw [hM] at h
    simp only [List.head?_cons, Option.some.injEq] at h
    subst h
    exact dropWhile_head_not isWs _ _ _ hM

/-- `splitOnNl` never returns the empty list of segments. -/
theorem splitOnNl_ne_nil : ∀ l : List Char, splitOnNl l ≠ [] := by
  intro l
  cases l with
  | nil => simp [splitOnNl]
  | cons c t =>
    unfold splitOnNl
    split
    · simp
    · split
      · simp
      · simp

/-- The default of `getLastD` is irrelevant on a nonempty list. -/
theorem getLastD_ne_nil {α : Type} (r : List α) (d d' : α) (hr : r ≠ []) :
    r.getLastD d = r.getLastD d' := by
  cases r with
  | nil => exact absurd rfl hr
  | cons a t =>
    rw [List.getLastD_cons, List.getLastD_cons]

/-- The last character of a document, when not a newline, belongs to the last
segment produced by `splitOnNl`. -/
theorem mem_splitOnNl_getLast : ∀ (l : List Char) (z : Char),
    l.getLast? = some z → z ≠ '\n' → z ∈ (splitOnNl l).getLastD [] := by
  intro l
  induction l with
  | nil => intro z h _; simp at h
  | cons c t ih =>
    intro z h hz
    cases t with
    | nil =>
      simp only [List.getLast?_singleton, Option.some.injEq] at h
      subst h
      unfold splitOnNl
      rw [if_neg hz]
      simp [splitOnNl, List.getLastD]
    | cons b u =>
      have hlast : (b :: u).getLast? = some z := by
        rw [← List.getLast?_cons_cons]; exact h
      have hmem := ih z hlast hz
      unfold splitOnNl
      by_cases hc : c = '\n'
      · rw [if_pos hc, List.getLastD_cons]
        rw [getLastD_ne_nil _ _ ([] : List Char) (splitOnNl_ne_nil (b :: u))]
        exact hmem
      · rw [if_neg hc]
        cases hS : splitOnNl (b :: u) with
        | nil => exact absurd hS (splitOnNl_ne_nil _)
        | cons hseg r =>
          rw [hS] at hmem
          cases r with
          | nil =>
            simp only [List.getLastD_cons, List.getLastD] at hmem ⊢
            exact List.mem_cons_of_mem c hmem
          | cons r1 rr =>
            rw [List.getLastD_cons] at hmem ⊢
            rw [getLastD_ne_nil _ _ hseg (by simp)]
            rw [getLastD_ne_nil _ _ (c :: hseg) (by simp)] at hmem
            exact hmem

/-- Under the head/tail guard (at least three lines after trimming) the tail
anchor text is nonempty. -/
theorem tailTextNonempty (c : List Char)
    (hg : 3 ≤ (splitOnNl (jsTrim c)).length) :
    1 ≤ (jsTrim ((splitOnNl (jsTrim c)).getLastD [])).length := by
  have hne : jsTrim c ≠ [] := by
    intro h0
    rw [h0] at hg
    simp [splitOnNl] at hg
  obtain ⟨z, hz⟩ : ∃ z, (jsTrim c).getLast? = some z := by
    cases hL : (jsTrim c).getLast? with
    | none => exact absurd (List.getLast?_eq_none_iff.mp hL) hne
    | some z => exact ⟨z, rfl⟩
  have hzw : isWs z = false := jsTrim_getLast_not_ws c z hz
  have hzn : z ≠ '\n' := by
    intro h
    rw [h] at hzw
    simp [isWs] at hzw
  have hmem : z ∈ (splitOnNl (jsTrim c)).getLastD [] :=
    mem_splitOnNl_getLast (jsTrim c) z hz hzn
  have hJ := jsTrim_ne_nil _ z hmem hzw
  cases hK : jsTrim ((splitOnNl (jsTrim c)).getLastD []) with
  | nil => exact absurd hK hJ
  | cons _ _ => simp

/-- Bounds for a head/tail triangulation result, relative to the window. -/
theorem headTail_bounds (ft c : List Char) (l : Int) (s e : Nat)
    (h : headTailStep ft c l = some (s, e)) :
    searchStartOf l ≤ s ∧ s ≤ e ∧
      e ≤ searchStartOf l + (searchAreaOf ft c l).length := by
  unfold headTailStep at h
  dsimp only at h
  split at h
  · rename_i hguard
    split at h
    · rename_i headIdx heq1
      split at h
      · rename_i tailIdx heq2
        obtain ⟨-, hb1⟩ := strIndexOf_spec _ _ _ heq1
        obtain ⟨-, hb2⟩ := strIndexOf_spec _ _ _ heq2
        simp only [List.length_take, List.length_drop] at hb2
        have htl := tailTextNonempty c hguard.1
        have hmax : headIdx ≤ max headIdx (headIdx + c.length - 500) :=
          Nat.le_max_left _ _
        have hb2' := le_trans hb2 (Nat.min_le_right _ _)
        injection h with h
        injection h with hs he
        subst hs
        subst he
        refine ⟨by omega, by omega, by omega⟩
      · exact absurd h (by simp)
    · exact absurd h (by simp)
  · exact absurd h (by simp)

/-- Any range produced by the recovery cascade is ordered and — provided the
window start position does not exceed the document length — ends inside the
document. -/
theorem recover_bounds (ft c : List Char) (l : Int) (s e : Nat)
    (hss : searchStartOf l ≤ ft.length)
    (h : recoverTracePoints ft c l = some (s, e)) :
    s ≤ e ∧ e ≤ ft.length := by
  have harea := searchArea_length ft c l
  unfold recoverTracePoints recoverWithRegex at h
  split at h
  · rename_i r hw
    cases h
    unfold windowedExactStep at hw
    simp only [Option.map_eq_some'] at hw
    obtain ⟨i, hi, heq⟩ := hw
    obtain ⟨-, hb⟩ := strIndexOf_spec _ _ _ hi
    injection heq with hs he
    subst hs
    subst he
    omega
  · split at h
    · rename_i r hf
      cases h
      unfold flexibleStep at hf
      split at hf
      · simp only [Option.map_eq_some'] at hf
        obtain ⟨⟨i, L⟩, hp, heq⟩ := hf
        have hb := flexSearch_le c _ i L hp
        injection heq with hs he
        subst hs
        subst he
        omega
      · exact absurd hf (by simp)
    · split at h
      · rename_i r hh
        cases h
        obtain ⟨h1, h2, h3⟩ := headTail_bounds ft c l s e hh
        omega
      · unfold wholeDocStep at h
        simp only [Option.map_eq_some'] at h
        obtain ⟨i, hi, heq⟩ := h
        obtain ⟨-, hb⟩ := strIndexOf_spec _ _ _ hi
        injection heq with hs he
        subst hs
        subst he
        omega

/-- A range produced by the windowed exact substring search re-slices to the
snapshot byte-for-byte. -/
theorem windowedExact_slice (ft c : List Char) (l : Int) (s e : Nat)
    (hw : windowedExactStep ft c l = some (s, e)) :
    sliceOffsets ft s e = c := by
  unfold windowedExactStep at hw
  simp only [Option.map_eq_some'] at hw
  obtain ⟨i, hi, heq⟩ := hw
  unfold searchAreaOf at hi
  obtain ⟨hread, -⟩ := strIndexOf_window ft c (searchStartOf l) _ i hi
  injection heq with hs he
  subst hs
  subst he
  unfold sliceOffsets
  have : searchStartOf l + i + c.length - (searchStartOf l + i) = c.length := by omega
  rw [this]
  exact hread

/-- A range produced by the whole-document exact substring search re-slices
to the snapshot byte-for-byte. -/
theorem wholeDoc_slice (ft c : List Char) (s e : Nat)
    (hw : wholeDocStep ft c = some (s, e)) :
    sliceOffsets ft s e = c := by
  unfold wholeDocStep at hw
  simp only [Option.map_eq_some'] at hw
  obtain ⟨i, hi, heq⟩ := hw
  obtain ⟨hread, -⟩ := strIndexOf_spec _ _ _ hi
  injection heq with hs he
  subst hs
  subst he
  unfold sliceOffsets
  have : i + c.length - i = c.length := by omega
  rw [this]
  exact hread

/-- C3 amended: whenever the recovery cascade returns a range produced by
the windowed exact substring search (strategy 1) or by the whole-document
exact search (strategy 4) — i.e. not by the whitespace-flexible regex nor by
head/tail triangulation, both of which deliberately accept spans that need
not be byte-identical to the snapshot, and head/tail spans need not even
match it under whitespace normalization — the text re-sliced at that range
is byte-identical to the stored snapshot, hence matches it under the
validator's whitespace-normalized comparison.  The first disjunct of `hsrc`
covers every hit of the windowed exact search (the cascade returns it first,
whatever the later strategies would do); the second covers the
whole-document fallback, reached only when the three windowed strategies all
failed. -/
theorem c3_recover_slice_matches (ft c : List Char) (l : Int) (s e : Nat)
    (hrec : recoverTracePoints ft c l = some (s, e))
    (hsrc : windowedExactStep ft c l = some (s, e) ∨
      (flexibleStep ft c l = none ∧ headTailStep ft c l = none)) :
    sliceOffsets ft s e = c ∧ contentMatches (sliceOffsets ft s e) c = true := by
  have hmain : sliceOffsets ft s e = c := by
    rcases hsrc with hw | ⟨hflex, hht⟩
    · exact windowedExact_slice ft c l s e hw
    · unfold recoverTracePoints recoverWithRegex at hrec
      split at hrec
      · rename_i r hw
        cases hrec
        exact windowedExact_slice ft c l s e hw
      · rw [hflex] at hrec
        rw [hht] at hrec
        exact wholeDoc_slice ft c s e hrec
  exact ⟨hmain, by simp [hmain, contentMatches]⟩

/-- C3 amended witness, exercising both sources: (1) the ordinary case — on
document `"ab"` with snapshot `"ab"` the windowed exact search produces
`[0, 2)` and the recovered slice is the snapshot; (2) the fallback case —
with an empty search window (`lastKnownStart = -6000`) the cascade reaches
the whole-document exact search. -/
theorem c3_recover_slice_matches_witness :
    (recoverTracePoints "ab".data "ab".data 0 = some (0, 2) ∧
      windowedExactStep "ab".data "ab".data 0 = some (0, 2) ∧
      sliceOffsets "ab".data 0 2 = "ab".data ∧
      contentMatches (sliceOffsets "ab".data 0 2) "ab".data = true) ∧
    (recoverTracePoints "abc".data "b".data (-6000) = some (1, 2) ∧
      flexibleStep "abc".data "b".data (-6000) = none ∧
      headTailStep "abc".data "b".data (-6000) = none ∧
      sliceOffsets "abc".data 1 2 = "b".data ∧
      contentMatches (sliceOffsets "abc".data 1 2) "b".data = true) := by
  refine ⟨⟨by decide, by decide, ?_, ?_⟩, ⟨by decide, by decide, by decide, ?_, ?_⟩⟩
  · exact (c3_recover_slice_matches "ab".data "ab".data 0 0 2 (by decide)
      (Or.inl (by decide))).1
  · exact (c3_recover_slice_matches "ab".data "ab".data 0 0 2 (by decide)
      (Or.inl (by decide))).2
  · exact (c3_recover_slice_matches "abc".data "b".data (-6000) 1 2 (by decide)
      (Or.inr ⟨by decide, by decide⟩)).1
  · exact (c3_recover_slice_matches "abc".data "b".data (-6000) 1 2 (by decide)
      (Or.inr ⟨by decide, by decide⟩)).2

/-- Snapshot whose interior (`bbb`) differs from the fake block in
`htCexDoc`, while head and tail lines coincide. -/
def htCexContent : List Char := "QQQQQQQQQQQQQQQQQQQQQ\nbbb\nTTTTTTTTTTTTTTTTTTTTT".data

/-- Document containing a look-alike block with a different interior. -/
def htCexDoc : List Char := "QQQQQQQQQQQQQQQQQQQQQ\nZZZ\nTTTTTTTTTTTTTTTTTTTTT".data

/-- C3 counterexample: head/tail triangulation recovers the range `[0, 47)`
(head and tail lines match) although the re-sliced text does not equal the
snapshot even under the whitespace-normalized comparison — the claim's only
exception is the regex strategy, so the claim as stated is false. -/
theorem c3_counterexample :
    recoverTracePoints htCexDoc htCexContent 0 = some (0, 47) ∧
    contentMatches (sliceOffsets htCexDoc 0 47) htCexContent = false :=
  ⟨by decide, by decide⟩


/-- Document for the C6 counterexample: 160 filler characters. -/
def c6Doc : List Char := List.replicate 160 'x'

/-- Trace for the C6 counterexample: anchor at `[100, 150)`. -/
def c6Trace : Trace :=
  { id := "t6", filePath := "f", content := "yyy".data, note := "",
    rangeOffset := some (100, 150), lineRange := none, orphaned := false }

/-- Change for the C6 counterexample: delete `[0, 120)`. -/
def c6Change : ContentChange := { rangeOffset := 0, rangeLength := 120, text := [] }

/-- C6 counterexample: a deletion overlapping the anchor and reaching past
its start leaves the range untouched (the adjuster's fall-through branch),
so after the synchronous offset adjustment the non-orphaned anchor's end
(150) exceeds the new document length (40); the invariant is restored only
by the deferred validation pass. -/
theorem c6_counterexample :
    applyChangeToTrace (applyEdit c6Doc c6Change) c6Change c6Trace = c6Trace ∧
    c6Trace.orphaned = false ∧
    c6Trace.rangeOffset = some (100, 150) ∧
    ((applyEdit c6Doc c6Change).length : Int) = 40 ∧
    ¬(150 ≤ ((applyEdit c6Doc c6Change).length : Int)) :=
  ⟨by decide, rfl, rfl, by decide, by decide⟩

/-- C6 amended: the range invariant `0 ≤ start ≤ end ≤ documentLength` holds
for every trace that a validation pass leaves non-orphaned (given a
well-formed input range `start ≤ end`); after the synchronous offset
adjustment alone it can be violated until the trace's queued validation
runs. -/
theorem c6_validated_range_in_bounds (doc : List Char) (t : Trace) (s e sr er : Int)
    (hro : t.rangeOffset = some (s, e)) (hwf : s ≤ e)
    (hres : (validateTrace doc t).rangeOffset = some (sr, er))
    (horph : (validateTrace doc t).orphaned = false) :
    0 ≤ sr ∧ sr ≤ er ∧ er ≤ (doc.length : Int) := by
  by_cases hin : s < 0 ∨ (doc.length : Int) < e
  · have hval : validateTrace doc t = { t with orphaned := true } := by
      unfold validateTrace
      simp only [hro]
      rw [if_pos hin]
    rw [hval] at horph
    simp at horph
  · have h0 : 0 ≤ s := by omega
    have hlen : e ≤ (doc.length : Int) := by omega
    by_cases hcm : contentMatches
        (sliceOffsets doc (min s.toNat e.toNat) (max s.toNat e.toNat)) t.content = true
    · have hval : (validateTrace doc t).rangeOffset = t.rangeOffset := by
        unfold validateTrace
        simp only [hro]
        rw [if_neg hin]
        rw [if_pos hcm]
        by_cases horp : t.orphaned = true
        · rw [if_pos horp]
        · rw [if_neg horp]
      rw [hval, hro] at hres
      injection hres with hres
      injection hres with h1 h2
      subst h1
      subst h2
      exact ⟨h0, hwf, hlen⟩
    · cases hrec : recoverTracePoints doc t.content s with
      | none =>
        have hval : validateTrace doc t =
            { t with lineRange := some (lineOf doc s, lineOf doc e), orphaned := true } := by
          unfold validateTrace
          simp only [hro]
          rw [if_neg hin]
          rw [if_neg hcm]
          simp only [hrec]
        rw [hval] at horph
        simp at horph
      | some pr =>
        obtain ⟨rs, re⟩ := pr
        have hval : (validateTrace doc t).rangeOffset = some ((rs : Int), (re : Int)) := by
          unfold validateTrace
          simp only [hro]
          rw [if_neg hin]
          rw [if_neg hcm]
          simp only [hrec]
        have hss : searchStartOf s ≤ doc.length := by
          unfold searchStartOf
          rw [Int.toNat_le]
          unfold SEARCH_RADIUS
          omega
        obtain ⟨hb1, hb2⟩ := recover_bounds doc t.content s rs re hss hrec
        rw [hval] at hres
        injection hres with hres
        injection hres with h1 h2
        subst h1
        subst h2
        refine ⟨Int.natCast_nonneg rs, by exact_mod_cast hb1, by exact_mod_cast hb2⟩

/-- C6 amended witness: document `"ab"`, anchor `[0, 2)` with matching
snapshot; the validated range is inside the document. -/
theorem c6_validated_range_in_bounds_witness :
    (0 ≤ (0 : Int)) ∧ ((0 : Int) ≤ 2) ∧ ((2 : Int) ≤ ("ab".data.length : Int)) :=
  c6_validated_range_in_bounds "ab".data
    { id := "t6w", filePath := "f", content := "ab".data, note := "",
      rangeOffset := some (0, 2), lineRange := none, orphaned := false }
    0 2 0 2 rfl (by decide) (by decide) (by decide)


/-- Per-trace idempotence of the validation pass, conditional on the first
pass ending in an orphaned state or in a range whose live text matches the
snapshot (true in every case except a recovery onto a non-matching span). -/
theorem validateTrace_idem (doc : List Char) (t : Trace)
    (hwf : ∀ a b : Int, t.rangeOffset = some (a, b) → a ≤ b)
    (hcond : (validateTrace doc t).orphaned = true ∨
      ∀ a b : Int, (validateTrace doc t).rangeOffset = some (a, b) →
        contentMatches (sliceOffsets doc (min a.toNat b.toNat) (max a.toNat b.toNat))
          (validateTrace doc t).content = true) :
    validateTrace doc (validateTrace doc t) = validateTrace doc t := by
  cases hro : t.rangeOffset with
  | none =>
    have hval : validateTrace doc t = t := by
      unfold validateTrace
      simp only [hro]
    rw [hval]
    exact hval
  | some p =>
    obtain ⟨s, e⟩ := p
    by_cases hin : s < 0 ∨ (doc.length : Int) < e
    · have hval : validateTrace doc t = { t with orphaned := true } := by
        unfold validateTrace
        simp only [hro]
        rw [if_pos hin]
      rw [hval]
      unfold validateTrace
      simp only [hro]
      rw [if_pos hin]
    · by_cases hcm : contentMatches
          (sliceOffsets doc (min s.toNat e.toNat) (max s.toNat e.toNat)) t.content = true
      · by_cases horp : t.orphaned = true
        · have hval : validateTrace doc t =
              { t with lineRange := some (lineOf doc s, lineOf doc e), orphaned := false } := by
            unfold validateTrace
            simp only [hro]
            rw [if_neg hin, if_pos hcm, if_pos horp]
          rw [hval]
          unfold validateTrace
          simp only [hro]
          rw [if_neg hin, if_pos hcm]
          simp
        · have hval : validateTrace doc t =
              { t with lineRange := some (lineOf doc s, lineOf doc e) } := by
            unfold validateTrace
            simp only [hro]
            rw [if_neg hin, if_pos hcm, if_neg horp]
          rw [hval]
          unfold validateTrace
          simp only [hro]
          rw [if_neg hin, if_pos hcm]
          have horp2 : ¬(t.orphaned = true) := horp
          rw [if_neg horp2]
      · cases hrec : recoverTracePoints doc t.content s with
        | none =>
          have hval : validateTrace doc t =
              { t with lineRange := some (lineOf doc s, lineOf doc e), orphaned := true } := by
            unfold validateTrace
            simp only [hro]
            rw [if_neg hin, if_neg hcm]
            simp only [hrec]
          rw [hval]
          unfold validateTrace
          simp only [hro]
          rw [if_neg hin, if_neg hcm]
          simp only [hrec]
        | some pr =>
          obtain ⟨rs, re⟩ := pr
          have hval : validateTrace doc t =
              { t with rangeOffset := some ((rs : Int), (re : Int)),
                       lineRange := some (lineOf doc (rs : Int), lineOf doc (re : Int)),
                       orphaned := false } := by
            unfold validateTrace
            simp only [hro]
            rw [if_neg hin, if_neg hcm]
            simp only [hrec]
          have hss : searchStartOf s ≤ doc.length := by
            unfold searchStartOf
            rw [Int.toNat_le]
            unfold SEARCH_RADIUS
            have := hwf s e hro
            omega
          obtain ⟨hb1, hb2⟩ := recover_bounds doc t.content s rs re hss hrec
          have hm : contentMatches
              (sliceOffsets doc (min ((rs : Int)).toNat ((re : Int)).toNat)
                (max ((rs : Int)).toNat ((re : Int)).toNat)) t.content = true := by
            rcases hcond with hc | hc
            · rw [hval] at hc
              simp at hc
            · have := hc (rs : Int) (re : Int) (by rw [hval])
              rw [hval] at this
              exact this
          have hin2 : ¬((rs : Int) < 0 ∨ (doc.length : Int) < (re : Int)) := by
            intro hcontra
            rcases hcontra with h | h
            · omega
            · have : (re : Int) ≤ (doc.length : Int) := by exact_mod_cast hb2
              omega
          rw [hval]
          unfold validateTrace
          dsimp only
          rw [if_neg hin2, if_pos hm]
          simp
  

/-- C8 amended: running the validation pass twice in a row with no
intervening edits changes nothing the second time, provided every trace's
range is well-formed (`start ≤ end`) and the first pass left each trace
orphaned or holding a range whose live text matches its snapshot — the latter
holds in every case except a recovery onto a non-matching span (head/tail
triangulation), for which a second pass can genuinely move the range again
(see the counterexample). -/
theorem c8_validation_idempotent (doc : List Char) (ts : List Trace)
    (hwf : ∀ t ∈ ts, ∀ a b : Int, t.rangeOffset = some (a, b) → a ≤ b)
    (hcond : ∀ t ∈ ts, (validateTrace doc t).orphaned = true ∨
      ∀ a b : Int, (validateTrace doc t).rangeOffset = some (a, b) →
        contentMatches (sliceOffsets doc (min a.toNat b.toNat) (max a.toNat b.toNat))
          (validateTrace doc t).content = true) :
    validateAll doc (validateAll doc ts) = validateAll doc ts := by
  unfold validateAll
  rw [List.map_map]
  apply List.map_congr_left
  intro t ht
  rw [Function.comp_apply]
  exact validateTrace_idem doc t (hwf t ht) (hcond t ht)

/-- Trace for the C8 witness. -/
def c8WitnessTrace : Trace :=
  { id := "t8w", filePath := "f", content := "ab".data, note := "",
    rangeOffset := some (0, 2), lineRange := none, orphaned := false }

/-- C8 amended witness: one anchor on `"ab"` whose snapshot matches; the
second validation pass is a no-op. -/
theorem c8_validation_idempotent_witness :
    validateAll "ab".data (validateAll "ab".data [c8WitnessTrace]) =
      validateAll "ab".data [c8WitnessTrace] := by
  apply c8_validation_idempotent
  · intro t ht a b hab
    rw [List.mem_singleton] at ht
    subst ht
    rw [show c8WitnessTrace.rangeOffset = some (0, 2) from rfl] at hab
    injection hab with hab
    injection hab with h1 h2
    subst h1
    subst h2
    decide
  · intro t ht
    rw [List.mem_singleton] at ht
    subst ht
    right
    intro a b hab
    rw [show (validateTrace "ab".data c8WitnessTrace).rangeOffset = some (0, 2) from rfl] at hab
    injection hab with hab
    injection hab with h1 h2
    subst h1
    subst h2
    decide



/-! ## Symbolic search computation over `replicate`/append documents

The C8 counterexample needs a document longer than `SEARCH_RADIUS`; direct
evaluation of the search primitives over such lists is infeasible, so the
searches are computed symbolically with skip lemmas. -/

/-- Scanning `strIndexOf` past `m` positions at which the needle is known
not to occur. -/
theorem strIndexOf_scan : ∀ (m : Nat) (hay c : List Char),
    (∀ i < m, listStartsWith c (hay.drop i) = false) →
    strIndexOf hay c = (strIndexOf (hay.drop m) c).map (· + m) := by
  intro m
  induction m with
  | zero =>
    intro hay c _
    rw [List.drop_zero]
    cases strIndexOf hay c <;> simp
  | succ m ih =>
    intro hay c hscan
    have h0 : listStartsWith c hay = false := by
      have := hscan 0 (Nat.succ_pos m)
      rwa [List.drop_zero] at this
    cases hay with
    | nil =>
      have hnone : strIndexOf [] c = none := by
        unfold strIndexOf
        rw [h0]
        simp
      rw [List.drop_nil, hnone]
      simp
    | cons a t =>
      have hstep : strIndexOf (a :: t) c = (strIndexOf t c).map (· + 1) := by
        conv_lhs => rw [strIndexOf]
        rw [h0]
        simp
      have hshift : ∀ i < m, listStartsWith c (t.drop i) = false := by
        intro i hi
        have := hscan (i + 1) (by omega)
        simpa using this
      have hd : (a :: t).drop (m + 1) = t.drop m := by simp
      rw [hstep, ih t c hshift, hd]
      cases strIndexOf (t.drop m) c with
      | none => simp
      | some v => simp [Nat.add_assoc]

/-- Skipping a replicated filler block whose character differs from the
needle's first character. -/
theorem strIndexOf_replicate_skip : ∀ (n : Nat) (a : Char) (r c : List Char) (q : Char),
    c.head? = some q → ¬(q = a) →
    strIndexOf (List.replicate n a ++ r) c = (strIndexOf r c).map (· + n) := by
  intro n
  induction n with
  | zero =>
    intro a r c q _ _
    rw [List.replicate_zero, List.nil_append]
    cases strIndexOf r c <;> simp
  | succ n ih =>
    intro a r c q hq hqa
    rw [List.replicate_succ, List.cons_append]
    have h0 : listStartsWith c (a :: (List.replicate n a ++ r)) = false := by
      cases c with
      | nil => simp at hq
      | cons c0 cs =>
        simp only [List.head?_cons, Option.some.injEq] at hq
        subst hq
        unfold listStartsWith
        simp [fun h => hqa h]
    have hstep : strIndexOf (a :: (List.replicate n a ++ r)) c =
        (strIndexOf (List.replicate n a ++ r) c).map (· + 1) := by
      conv_lhs => rw [strIndexOf]
      rw [h0]
      simp
    rw [hstep, ih a r c q hq hqa]
    cases strIndexOf r c with
    | none => simp
    | some v => simp [Nat.add_assoc]

/-- Scanning `flexSearch` past `m` positions at which the flexible pattern is
known not to match. -/
theorem flexSearch_scan : ∀ (m : Nat) (hay c : List Char),
    (∀ i < m, flexMatchAt c (hay.drop i) = none) →
    flexSearch c hay = (flexSearch c (hay.drop m)).map (fun p => (p.1 + m, p.2)) := by
  intro m
  induction m with
  | zero =>
    intro hay c _
    rw [List.drop_zero]
    cases flexSearch c hay <;> simp
  | succ m ih =>
    intro hay c hscan
    have h0 : flexMatchAt c hay = none := by
      have := hscan 0 (Nat.succ_pos m)
      rwa [List.drop_zero] at this
    cases hay with
    | nil =>
      have hnone : flexSearch c [] = none := by
        unfold flexSearch
        rw [show flexMatchAt c [] = none from h0]
        simp
      rw [List.drop_nil, hnone]
      simp
    | cons a t =>
      have hstep : flexSearch c (a :: t) =
          (flexSearch c t).map (fun p => (p.1 + 1, p.2)) := by
        conv_lhs => rw [flexSearch]
        rw [h0]
      have hshift : ∀ i < m, flexMatchAt c (t.drop i) = none := by
        intro i hi
        have := hscan (i + 1) (by omega)
        simpa using this
      have hd : (a :: t).drop (m + 1) = t.drop m := by simp
      rw [hstep, ih t c hshift, hd]
      cases flexSearch c (t.drop m) with
      | none => simp
      | some v => simp [Nat.add_assoc]

/-- The flexible pattern cannot match where the area's first character
differs from the pattern's first literal. -/
theorem flexMatchAt_head_mismatch (c : List Char) (q a : Char) (rest : List Char)
    (hq : (collapseWs false c).head? = some q) (hsp : ¬(q = ' ')) (hqa : ¬(q = a)) :
    flexMatchAt c (a :: rest) = none := by
  unfold flexMatchAt
  cases htok : collapseWs false c with
  | nil => rw [htok] at hq; simp at hq
  | cons t0 ts =>
    rw [htok] at hq
    simp only [List.head?_cons, Option.some.injEq] at hq
    subst hq
    unfold flexMatchTok
    rw [if_neg hsp]
    dsimp only
    rw [if_neg (fun h => hqa h.symm)]

/-- Skipping a replicated filler block for the flexible search. -/
theorem flexSearch_replicate_skip : ∀ (n : Nat) (a : Char) (r c : List Char) (q : Char),
    (collapseWs false c).head? = some q → ¬(q = ' ') → ¬(q = a) →
    flexSearch c (List.replicate n a ++ r) = (flexSearch c r).map (fun p => (p.1 + n, p.2)) := by
  intro n
  induction n with
  | zero =>
    intro a r c q _ _ _
    rw [List.replicate_zero, List.nil_append]
    cases flexSearch c r <;> simp
  | succ n ih =>
    intro a r c q hq hsp hqa
    rw [List.replicate_succ, List.cons_append]
    have hstep : flexSearch c (a :: (List.replicate n a ++ r)) =
        (flexSearch c (List.replicate n a ++ r)).map (fun p => (p.1 + 1, p.2)) := by
      conv_lhs => rw [flexSearch]
      rw [flexMatchAt_head_mismatch c q a _ hq hsp hqa]
    rw [hstep, ih a r c q hq hsp hqa]
    cases flexSearch c r with
    | none => simp
    | some v => simp [Nat.add_assoc]


/-- Snapshot for the C8 counterexample (47 characters, three lines). -/
def c8Content : List Char := "QQQQQQQQQQQQQQQQQQQQQ\nbbb\nTTTTTTTTTTTTTTTTTTTTT".data

/-- Look-alike block: head and tail lines agree with `c8Content`, the
interior does not. -/
def c8Fake : List Char := "QQQQQQQQQQQQQQQQQQQQQ\nZZZ\nTTTTTTTTTTTTTTTTTTTTT".data

/-- Document for the C8 counterexample: 47 filler characters, the look-alike
block, 4953 filler characters, then the exact snapshot at offset 5047 — just
outside the 5000-character search window around offset 0, but inside the
window around the look-alike block. -/
def c8Doc : List Char :=
  List.replicate 47 'x' ++ (c8Fake ++ (List.replicate 4953 'x' ++ c8Content))

/-- Trace for the C8 counterexample, anchored at `[0, 0)`. -/
def c8Trace : Trace :=
  { id := "t8", filePath := "f", content := c8Content, note := "",
    rangeOffset := some (0, 0), lineRange := none, orphaned := false }

theorem c8Content_length : c8Content.length = 47 := by decide

theorem c8Fake_length : c8Fake.length = 47 := by decide

theorem c8Doc_length : c8Doc.length = 5094 := by
  unfold c8Doc
  rw [List.length_append, List.length_append, List.length_append,
    List.length_replicate, List.length_replicate, c8Content_length, c8Fake_length]

/-- The first 5047 characters of the document: everything except the exact
snapshot occurrence. -/
theorem c8Doc_assoc :
    c8Doc = (List.replicate 47 'x' ++ (c8Fake ++ List.replicate 4953 'x')) ++ c8Content := by
  unfold c8Doc
  simp only [List.append_assoc]

theorem c8_window1 : searchAreaOf c8Doc c8Content 0 =
    List.replicate 47 'x' ++ (c8Fake ++ List.replicate 4953 'x') := by
  unfold searchAreaOf
  rw [show searchStartOf 0 = 0 from by decide]
  rw [show searchEndOf c8Doc.length 0 c8Content.length = 5047 from by
    rw [c8Doc_length, c8Content_length]; decide]
  rw [List.drop_zero, c8Doc_assoc]
  rw [@List.take_left' Char _ c8Content _ (by
    rw [List.length_append, List.length_append, List.length_replicate,
      List.length_replicate, c8Fake_length])]

theorem c8_window2 : searchAreaOf c8Doc c8Content 47 = c8Doc := by
  unfold searchAreaOf
  rw [show searchStartOf 47 = 0 from by decide]
  rw [show searchEndOf c8Doc.length 47 c8Content.length = 5094 from by
    rw [c8Doc_length, c8Content_length]; decide]
  rw [List.drop_zero]
  exact List.take_of_length_le (by rw [c8Doc_length])

/-- The exact snapshot does not occur in the first window. -/
theorem c8_exact_miss :
    strIndexOf (List.replicate 47 'x' ++ (c8Fake ++ List.replicate 4953 'x')) c8Content = none := by
  rw [strIndexOf_replicate_skip 47 'x' _ c8Content 'Q' (by decide) (by decide)]
  rw [strIndexOf_scan 47 (c8Fake ++ List.replicate 4953 'x') c8Content (by decide)]
  rw [List.drop_left' c8Fake_length]
  rw [show List.replicate 4953 'x' = List.replicate 4953 'x' ++ ([] : List Char) from
    (List.append_nil _).symm]
  rw [strIndexOf_replicate_skip 4953 'x' [] c8Content 'Q' (by decide) (by decide)]
  rw [show strIndexOf [] c8Content = none from by decide]
  simp

/-- The whitespace-flexible pattern does not match in the first window. -/
theorem c8_flex_miss :
    flexSearch c8Content (List.replicate 47 'x' ++ (c8Fake ++ List.replicate 4953 'x')) = none := by
  rw [flexSearch_replicate_skip 47 'x' _ c8Content 'Q' (by decide) (by decide) (by decide)]
  rw [flexSearch_scan 47 (c8Fake ++ List.replicate 4953 'x') c8Content (by decide)]
  rw [List.drop_left' c8Fake_length]
  rw [show List.replicate 4953 'x' = List.replicate 4953 'x' ++ ([] : List Char) from
    (List.append_nil _).symm]
  rw [flexSearch_replicate_skip 4953 'x' [] c8Content 'Q' (by decide) (by decide) (by decide)]
  rw [show flexSearch c8Content [] = none from by decide]
  simp

/-- The head line is first found at the look-alike block, offset 47. -/
theorem c8_head_hit :
    strIndexOf (List.replicate 47 'x' ++ (c8Fake ++ List.replicate 4953 'x'))
      "QQQQQQQQQQQQQQQQQQQQQ".data = some 47 := by
  rw [strIndexOf_replicate_skip 47 'x' _ _ 'Q' (by decide) (by decide)]
  rw [show strIndexOf (c8Fake ++ List.replicate 4953 'x') "QQQQQQQQQQQQQQQQQQQQQ".data = some 0
    from by
      rw [strIndexOf.eq_def]
      rw [if_pos (by decide)]]
  simp

/-- The tail line is found at relative offset 26 of the tail window. -/
theorem c8_tail_hit :
    strIndexOf (c8Fake ++ List.replicate 500 'x') "TTTTTTTTTTTTTTTTTTTTT".data = some 26 := by
  rw [strIndexOf_scan 26 (c8Fake ++ List.replicate 500 'x') _ (by decide)]
  rw [List.drop_append_eq_append_drop]
  rw [c8Fake_length]
  rw [show c8Fake.drop 26 = "TTTTTTTTTTTTTTTTTTTTT".data from by decide]
  rw [show (26 : Nat) - 47 = 0 from by decide, List.drop_zero]
  rw [show strIndexOf ("TTTTTTTTTTTTTTTTTTTTT".data ++ List.replicate 500 'x')
      "TTTTTTTTTTTTTTTTTTTTT".data = some 0 from by
    rw [strIndexOf.eq_def]
    rw [if_pos (by decide)]]
  simp

/-- The exact snapshot is found at offset 5047 in the whole document. -/
theorem c8_exact_hit : strIndexOf c8Doc c8Content = some 5047 := by
  unfold c8Doc
  rw [strIndexOf_replicate_skip 47 'x' _ c8Content 'Q' (by decide) (by decide)]
  rw [strIndexOf_scan 47 (c8Fake ++ (List.replicate 4953 'x' ++ c8Content)) c8Content (by decide)]
  rw [List.drop_left' c8Fake_length]
  rw [strIndexOf_replicate_skip 4953 'x' c8Content c8Content 'Q' (by decide) (by decide)]
  rw [show strIndexOf c8Content c8Content = some 0 from by
    rw [strIndexOf.eq_def]
    rw [if_pos (by decide)]]
  simp


theorem c8_windowed1 : windowedExactStep c8Doc c8Content 0 = none := by
  unfold windowedExactStep
  rw [c8_window1, c8_exact_miss]
  rfl

theorem c8_flexible1 : flexibleStep c8Doc c8Content 0 = none := by
  unfold flexibleStep
  rw [if_pos (by rw [c8Content_length]; decide)]
  rw [c8_window1, c8_flex_miss]
  rfl

theorem c8_headTail1 : headTailStep c8Doc c8Content 0 = some (47, 94) := by
  unfold headTailStep
  dsimp only
  rw [if_pos (⟨by decide, by decide⟩ :
    3 ≤ (splitOnNl (jsTrim c8Content)).length ∧ minAnchorLength * 2 < c8Content.length)]
  rw [show jsTrim ((splitOnNl (jsTrim c8Content)).headD []) =
    "QQQQQQQQQQQQQQQQQQQQQ".data from by decide]
  rw [show jsTrim ((splitOnNl (jsTrim c8Content)).getLastD []) =
    "TTTTTTTTTTTTTTTTTTTTT".data from by decide]
  rw [c8_window1, c8_head_hit]
  dsimp only
  rw [c8Content_length]
  rw [show (47 : Nat) + 47 - 500 = 0 from by decide]
  rw [show max (47 : Nat) 0 = 47 from by decide]
  rw [show (List.replicate 47 'x' ++ (c8Fake ++ List.replicate 4953 'x')).length = 5047 from by
    rw [List.length_append, List.length_append, List.length_replicate,
      List.length_replicate, c8Fake_length]]
  rw [show min (5047 : Nat) (47 + 47 + 500) = 594 from by decide]
  rw [@List.drop_left' Char _ (c8Fake ++ List.replicate 4953 'x') _ (by
    rw [List.length_replicate])]
  rw [show (594 : Nat) - 47 = 547 from by decide]
  rw [List.take_append_eq_append_take]
  rw [List.take_of_length_le (by rw [c8Fake_length]; decide)]
  rw [c8Fake_length]
  rw [show (547 : Nat) - 47 = 500 from by decide]
  rw [List.take_replicate]
  rw [show min (500 : Nat) 4953 = 500 from by decide]
  rw [c8_tail_hit]
  dsimp only
  rw [show searchStartOf 0 = 0 from by decide]
  rw [show ("TTTTTTTTTTTTTTTTTTTTT".data).length = 21 from by decide]

theorem c8_recover1 : recoverTracePoints c8Doc c8Content 0 = some (47, 94) := by
  unfold recoverTracePoints recoverWithRegex
  rw [c8_windowed1, c8_flexible1, c8_headTail1]

/-- Result of the first validation pass on the C8 trace: the anchor is
recovered by head/tail triangulation onto the look-alike block. -/
def c8Mid : Trace :=
  { id := "t8", filePath := "f", content := c8Content, note := "",
    rangeOffset := some (47, 94),
    lineRange := some (lineOf c8Doc 47, lineOf c8Doc 94), orphaned := false }

theorem c8_pass1 : validateTrace c8Doc c8Trace = c8Mid := by
  unfold validateTrace
  rw [show c8Trace.rangeOffset = some ((0 : Int), (0 : Int)) from rfl]
  dsimp only
  split
  · rename_i h
    exfalso
    rcases h with h | h
    · omega
    · rw [c8Doc_length] at h
      omega
  · split
    · rename_i h
      exact absurd h (by decide)
    · rw [show recoverTracePoints c8Doc c8Trace.content 0 = some (47, 94) from c8_recover1]
      rfl

theorem c8_windowed2 : windowedExactStep c8Doc c8Content 47 = some (5047, 5094) := by
  unfold windowedExactStep
  rw [c8_window2, c8_exact_hit]
  simp [show searchStartOf 47 = 0 from by decide, c8Content_length]

theorem c8_recover2 : recoverTracePoints c8Doc c8Content 47 = some (5047, 5094) := by
  unfold recoverTracePoints recoverWithRegex
  rw [c8_windowed2]

theorem c8_mid_slice :
    sliceOffsets c8Doc (min (Int.toNat 47) (Int.toNat 94)) (max (Int.toNat 47) (Int.toNat 94)) =
      c8Fake := by
  rw [show min (Int.toNat 47) (Int.toNat 94) = 47 from by decide]
  rw [show max (Int.toNat 47) (Int.toNat 94) = 94 from by decide]
  unfold sliceOffsets c8Doc
  rw [List.drop_left' (by rw [List.length_replicate])]
  rw [show (94 : Nat) - 47 = 47 from by decide]
  rw [List.take_left' c8Fake_length]

theorem c8_pass2_range : (validateTrace c8Doc c8Mid).rangeOffset = some (5047, 5094) := by
  unfold validateTrace
  rw [show c8Mid.rangeOffset = some ((47 : Int), (94 : Int)) from rfl]
  dsimp only
  split
  · rename_i h
    exfalso
    rcases h with h | h
    · omega
    · rw [c8Doc_length] at h
      omega
  · split
    · rename_i h
      exfalso
      rw [c8_mid_slice] at h
      rw [show c8Mid.content = c8Content from rfl] at h
      exact absurd h (by decide)
    · rw [show recoverTracePoints c8Doc c8Mid.content 47 = some (5047, 5094) from c8_recover2]
      rfl

/-- C8 counterexample: the first validation pass recovers the anchor by
head/tail triangulation onto the look-alike block at `[47, 94)`; the second
pass, searching the window around the new start 47, finds the exact snapshot
at `[5047, 5094)` and moves the range again — validation run twice with no
intervening edits does change state the second time. -/
theorem c8_counterexample :
    validateAll c8Doc (validateAll c8Doc [c8Trace]) ≠ validateAll c8Doc [c8Trace] := by
  intro heq
  have h1 : validateAll c8Doc [c8Trace] = [c8Mid] := by
    unfold validateAll
    rw [List.map_singleton, c8_pass1]
  rw [h1] at heq
  have h2 : validateAll c8Doc [c8Mid] = [validateTrace c8Doc c8Mid] := by
    unfold validateAll
    rw [List.map_singleton]
  rw [h2] at heq
  rw [List.cons.injEq] at heq
  have h4 := congrArg Trace.rangeOffset heq.1
  rw [c8_pass2_range] at h4
  rw [show c8Mid.rangeOffset = some ((47 : Int), (94 : Int)) from rfl] at h4
  rw [Option.some.injEq, Prod.mk.injEq] at h4
  exact absurd h4.1 (by decide)

end TraceNotes
